import Mathlib

/-!
Verification development for the rlox expression core (scanner, parser,
evaluator, tree printer).  Each Rust item is embedded as a Lean definition
with the same name where Lean allows it; `f64` number payloads are embedded
as rationals (`ℚ`), which is exact for every decimal literal appearing in
the claims, and fallible Rust `Result` values become `Except`.
-/

set_option maxRecDepth 10000

/-- Embeds `token.rs` / `TokenType` (the closed set of lexical categories);
keyword variants carry a `kw` prefix because several of their Rust names
(`False`, `True`, `If`, ...) collide with Lean keywords or core names. -/
inductive TokenType where
  | leftParen | rightParen | leftBrace | rightBrace
  | comma | dot | minus | plus | semicolon | slash | star
  | bang | bangEqual | equal | equalEqual
  | greater | greaterEqual | less | lessEqual
  | identifier | string | number
  | kwAnd | kwClass | kwElse | kwFalse | kwFun | kwFor | kwIf | kwNil
  | kwOr | kwPrint | kwReturn | kwSuper | kwThis | kwTrue | kwVar | kwWhile
  | eof
  deriving DecidableEq, Repr

/-- Embeds `token.rs` / `Literal`, the optional scanned payload of a token.
`Number(f64)` is embedded with a rational payload. -/
inductive TokLiteral where
  | number (n : ℚ)
  | string (s : String)
  | bool (b : Bool)
  | nil
  deriving DecidableEq, Repr

/-- Embeds `token.rs` / `Token`. -/
structure Token where
  token_type : TokenType
  lexeme : String
  literal : Option TokLiteral
  line : ℕ
  deriving DecidableEq, Repr

/-- Embeds `expr.rs` / `LiteralValue`. -/
inductive LiteralValue where
  | number (n : ℚ)
  | string (s : String)
  | bool (b : Bool)
  | nil
  deriving DecidableEq, Repr

/-- Embeds `expr.rs` / `Expr`.  The struct wrappers (`Binary { left, operator,
right }`, ...) are inlined as constructor arguments in field order; the
`Variable`, `This` and `Super` constructors get a trailing letter to avoid
Lean keywords. -/
inductive Expr where
  | assign (name : Token) (value : Expr)
  | binary (left : Expr) (operator : Token) (right : Expr)
  | call (callee : Expr) (paren : Token) (arguments : List Expr)
  | get (object : Expr) (name : Token)
  | grouping (expression : Expr)
  | literal (value : LiteralValue)
  | logical (left : Expr) (operator : Token) (right : Expr)
  | set (object : Expr) (name : Token) (value : Expr)
  | superE (keyword : Token) (method : Token)
  | thisE (keyword : Token)
  | unary (operator : Token) (right : Expr)
  | variableE (name : Token)
  deriving Repr

/-- Embeds `lox_value.rs` / `LoxValue`. -/
inductive LoxValue where
  | number (n : ℚ)
  | string (s : String)
  | bool (b : Bool)
  | nil
  deriving DecidableEq, Repr

namespace LoxValue

/-- Embeds `LoxValue::is_truthy`: `Bool(false)` and `Nil` are falsy,
everything else is truthy. -/
def is_truthy : LoxValue → Bool
  | .bool false => Bool.false
  | .nil => Bool.false
  | _ => Bool.true

/-- Embeds `LoxValue::as_number`. -/
def as_number : LoxValue → Option ℚ
  | .number n => some n
  | _ => none

/-- Embeds `LoxValue::as_string`. -/
def as_string : LoxValue → Option String
  | .string s => some s
  | _ => none

/-- Embeds `LoxValue::as_bool`. -/
def as_bool : LoxValue → Option Bool
  | .bool b => some b
  | _ => none

/-- Embeds `LoxValue::as_nil`. -/
def as_nil : LoxValue → Bool
  | .nil => Bool.true
  | _ => Bool.false

/-- Embeds `impl From<LiteralValue> for LoxValue`. -/
def fromLiteral : LiteralValue → LoxValue
  | .number n => .number n
  | .string s => .string s
  | .bool b => .bool b
  | .nil => .nil

end LoxValue

/-- Embeds `runtime_error.rs` / `RuntimeError` (fields in Rust order). -/
structure RuntimeError where
  token : Token
  message : String
  deriving DecidableEq, Repr

/-- Embeds `parser.rs` / `ParseError` (fields in Rust order). -/
structure ParseError where
  message : String
  token : Token
  deriving DecidableEq, Repr

/-- The fixed dummy token built in `Interpreter::evaluate`'s catch-all arm:
`TokenType::Eof`, empty lexeme, no literal, line 0. -/
def dummyToken : Token := ⟨.eof, "", none, 0⟩

/-- Embeds `Interpreter::is_equal`: derived structural `PartialEq` on
`LoxValue`. -/
def is_equal (left right : LoxValue) : Bool := decide (left = right)

/-- Embeds the operator dispatch of `Interpreter::visit_binary`, applied
after both operands have been evaluated (the Rust method evaluates
`binary.left` then `binary.right` and then matches on the operator).
Arithmetic on number payloads is modelled on the exact rationals; the one
place where binary64 rounding diverges from the exact result in the claims'
scope — overflow of the Slash arm's `l / r` to an infinity — is captured
separately by `f64DivOverflows` below. -/
def visit_binary_op (operator : Token) (left right : LoxValue) :
    Except RuntimeError LoxValue :=
  match operator.token_type with
  | .minus =>
    match left.as_number, right.as_number with
    | some l, some r => .ok (.number (l - r))
    | _, _ => .error ⟨operator, "Operands must be numbers."⟩
  | .star =>
    match left.as_number, right.as_number with
    | some l, some r => .ok (.number (l * r))
    | _, _ => .error ⟨operator, "Operands must be numbers."⟩
  | .slash =>
    match left.as_number, right.as_number with
    | some l, some r =>
      if r = 0 then .error ⟨operator, "Division by zero."⟩
      else .ok (.number (l / r))
    | _, _ => .error ⟨operator, "Operands must be numbers."⟩
  | .plus =>
    match left.as_number, right.as_number with
    | some l, some r => .ok (.number (l + r))
    | _, _ =>
      match left.as_string, right.as_string with
      | some l, some r => .ok (.string (l ++ r))
      | _, _ => .error ⟨operator, "Operands must be two numbers or two strings."⟩
  | .greater =>
    match left.as_number, right.as_number with
    | some l, some r => .ok (.bool (decide (l > r)))
    | _, _ => .error ⟨operator, "Operands must be numbers."⟩
  | .greaterEqual =>
    match left.as_number, right.as_number with
    | some l, some r => .ok (.bool (decide (l ≥ r)))
    | _, _ => .error ⟨operator, "Operands must be numbers."⟩
  | .less =>
    match left.as_number, right.as_number with
    | some l, some r => .ok (.bool (decide (l < r)))
    | _, _ => .error ⟨operator, "Operands must be numbers."⟩
  | .lessEqual =>
    match left.as_number, right.as_number with
    | some l, some r => .ok (.bool (decide (l ≤ r)))
    | _, _ => .error ⟨operator, "Operands must be numbers."⟩
  | .equalEqual => .ok (.bool (is_equal left right))
  | .bangEqual => .ok (.bool (!is_equal left right))
  | _ => .error ⟨operator, "Invalid binary operator."⟩

/-- Embeds `Interpreter::evaluate` together with the visitor methods it
dispatches to (`visit_literal`, `visit_grouping`, `visit_unary`,
`visit_binary`); the catch-all arm builds the fixed dummy token. -/
def evaluate : Expr → Except RuntimeError LoxValue
  | .literal value => .ok (LoxValue.fromLiteral value)
  | .grouping e => evaluate e
  | .unary operator right =>
    match evaluate right with
    | .error e => .error e
    | .ok r =>
      match operator.token_type with
      | .minus =>
        match r.as_number with
        | some n => .ok (.number (-n))
        | none => .error ⟨operator, "Operand must be a number."⟩
      | .bang => .ok (.bool (!r.is_truthy))
      | _ => .error ⟨operator, "Invalid unary operator."⟩
  | .binary left operator right =>
    match evaluate left with
    | .error e => .error e
    | .ok l =>
      match evaluate right with
      | .error e => .error e
      | .ok r => visit_binary_op operator l r
  | _ => .error ⟨dummyToken, "This expression type is not yet implemented"⟩

/-! ### IEEE-754 binary64 overflow of division

The rational value model is exact for every arithmetic result the claims
inspect, but the source's `l / r` at the Slash arm of
`Interpreter::visit_binary` is IEEE-754 binary64 division: the exact
quotient is rounded to the nearest representable binary64 value, ties to
even, and an exact quotient whose magnitude reaches `(2^54 - 1) * 2^970` —
the midpoint between the largest finite binary64 value `(2^53 - 1) * 2^971`
and the next grid point `2^1024`, a tie that rounds to the even candidate
`2^1024`, out of the finite range — yields a machine infinity.  The
definitions below state that overflow condition on the exact rational
quotient of two finite operands. -/

/-- The largest finite IEEE-754 binary64 value, `f64::MAX =
(2 - 2^-52) * 2^1023 = (2^53 - 1) * 2^971`, as the exact rational it
denotes. -/
def f64MaxFinite : ℚ := (2 ^ 53 - 1) * 2 ^ 971

/-- The smallest magnitude at which round-to-nearest-even binary64 rounding
sends an exact value to infinity: the midpoint `(2^54 - 1) * 2^970` between
`f64MaxFinite` and `2^1024`. -/
def f64OverflowThreshold : ℚ := (2 ^ 54 - 1) * 2 ^ 970

/-- For finite binary64 operands `l` and `r` (given as the exact rationals
they denote) with `r ≠ 0`, the source's machine division `l / r` evaluates
to an infinity exactly when the magnitude of the exact quotient reaches the
binary64 overflow threshold. -/
def f64DivOverflows (l r : ℚ) : Bool :=
  decide (f64OverflowThreshold ≤ |l / r|)

/-! ### Number rendering

Rust renders an `f64` with `Display`/`to_string` as its shortest
round-tripping decimal form.  In this embedding number payloads are the
exact rationals denoted by the source's decimal literals, so that rendering
is the plain (terminating) decimal expansion: integer part, and the
fractional digits while a nonzero remainder is left.  The digit recursion
is fueled; 1100 digits exceed the longest decimal expansion of any binary64
float, and every value in the claims needs at most two. -/

/-- Fractional digits of `r` (assumed `0 ≤ r < 1`), most significant first,
stopping at remainder zero. -/
def fracDigitsAux : ℕ → ℚ → List Char
  | 0, _ => []
  | fuel + 1, r =>
    if r = 0 then []
    else
      let d := Rat.floor (r * 10)
      Nat.digitChar d.toNat :: fracDigitsAux fuel (r * 10 - d)

/-- Decimal rendering of a nonnegative rational, embedding Rust's `f64`
`Display` on the decimal-exact values this model manipulates. -/
def numToStringNN (q : ℚ) : String :=
  let ip := (Rat.floor q).toNat
  let ds := fracDigitsAux 1100 (q - (ip : ℚ))
  if ds = [] then Nat.repr ip else Nat.repr ip ++ "." ++ String.mk ds

/-- Decimal rendering of a rational (embedding Rust's `f64` `Display`,
i.e. `n.to_string()` in `AstPrinter::visit_literal`). -/
def numToString (q : ℚ) : String :=
  if q < 0 then "-" ++ numToStringNN (-q) else numToStringNN q

/-- The saturating Rust cast `*n as i64`: a float-to-int `as` cast clamps to
the target range (Rust reference, float-to-int casts saturate since 1.45). -/
def i64sat (n : ℤ) : ℤ := max (-(2 ^ 63)) (min (2 ^ 63 - 1) n)

/-- Embeds `impl fmt::Display for LoxValue` (`lox_value.rs`): a Number whose
fractional part is zero (in the rational model every value is finite, and
`n.fract() == 0.0` holds exactly when the denominator is 1) is printed as
the **`i64` cast** of the float, `write!("{}", *n as i64)`; otherwise the
plain float rendering is used.  String prints raw, Bool prints
`true`/`false`, Nil prints `nil`. -/
def displayLox : LoxValue → String
  | .number n => if n.den = 1 then Int.repr (i64sat n.num) else numToString n
  | .string s => s
  | .bool b => if b then "true" else "false"
  | .nil => "nil"

/-- Embeds `AstPrinter::print` together with `visit_binary`, `visit_grouping`,
`visit_literal`, `visit_unary` and `parenthesize` (the `parenthesize` loop is
unrolled for the fixed one- and two-element argument slices the visitors
pass). -/
def AstPrinter.print : Expr → String
  | .binary left operator right =>
    "(" ++ operator.lexeme ++ " " ++ AstPrinter.print left ++ " " ++
      AstPrinter.print right ++ ")"
  | .grouping expression => "(group " ++ AstPrinter.print expression ++ ")"
  | .literal value =>
    match value with
    | .number n => numToString n
    | .string s => s
    | .bool b => if b then "true" else "false"
    | .nil => "nil"
  | .unary operator right => "(" ++ operator.lexeme ++ " " ++ AstPrinter.print right ++ ")"
  | _ => "(not implemented)"

/-! ### Scanner

`scanner.rs` walks the character sequence with a cursor (`start`,
`current`); the embedding consumes the same characters off a `List Char`,
which makes the consumed span (the Rust lexeme slice
`source[start..current]`) explicit.  Maximal-munch loops (`while
is_digit(peek())`, comment skipping, string bodies) become
`takeWhile`/`dropWhile` on the remaining characters. -/

namespace Scanner

/-- Embeds `Scanner::is_digit`. -/
def is_digit (c : Char) : Bool := '0' ≤ c && c ≤ '9'

/-- Embeds `Scanner::is_alpha`. -/
def is_alpha (c : Char) : Bool :=
  ('a' ≤ c && c ≤ 'z') || ('A' ≤ c && c ≤ 'Z') || c = '_'

/-- Embeds `Scanner::is_alpha_numeric`. -/
def is_alpha_numeric (c : Char) : Bool := is_alpha c || is_digit c

/-- Embeds the keyword table built in `Scanner::new`. -/
def keywords : List (String × TokenType) :=
  [("and", .kwAnd), ("class", .kwClass), ("else", .kwElse), ("false", .kwFalse),
   ("for", .kwFor), ("fun", .kwFun), ("if", .kwIf), ("nil", .kwNil),
   ("or", .kwOr), ("print", .kwPrint), ("return", .kwReturn), ("super", .kwSuper),
   ("this", .kwThis), ("true", .kwTrue), ("var", .kwVar), ("while", .kwWhile)]

/-- Natural value of a run of decimal digits. -/
def digitsToNat (ds : List Char) : ℕ :=
  ds.foldl (fun a c => 10 * a + (c.toNat - '0'.toNat)) 0

/-- Exact rational value of the decimal lexeme `intDs [. fracDs]`, embedding
`source[start..current].parse::<f64>().unwrap()` in `Scanner::number` (exact
for the decimal literals the claims evaluate). -/
def numberValue (intDs fracDs : List Char) : ℚ :=
  (digitsToNat intDs : ℚ) + (digitsToNat fracDs : ℚ) / (10 : ℚ) ^ fracDs.length

/-- Embeds `Scanner::add_token`: emit one token with no literal payload,
lexeme equal to the consumed span, at the current line. -/
def add_token (token_type : TokenType) (lexeme : String) (rest : List Char)
    (line : ℕ) : List Token × List Char × ℕ :=
  ([⟨token_type, lexeme, none, line⟩], rest, line)

/-- The maximal-munch step shared by `!`, `=`, `<`, `>` in
`Scanner::scan_token`: `token_match('=')` consumes a trailing `=` and picks
the two-character kind, otherwise the one-character kind. -/
def two_char_arm (one two : TokenType) (lexOne lexTwo : String)
    (rest : List Char) (line : ℕ) : List Token × List Char × ℕ :=
  match rest with
  | '=' :: rest2 => add_token two lexTwo rest2 line
  | _ => add_token one lexOne rest line

/-- The `/` arm of `Scanner::scan_token`: `//` starts a line comment whose
characters up to (not including) the next newline are discarded with no
token; otherwise a single `Slash` token. -/
def slash_arm (rest : List Char) (line : ℕ) : List Token × List Char × ℕ :=
  match rest with
  | '/' :: rest2 => ([], rest2.dropWhile (fun ch => ch ≠ '\n'), line)
  | _ => add_token .slash "/" rest line

/-- The string-literal arm of `Scanner::scan_token` (`Scanner::string`):
consume up to the closing quote, counting embedded newlines; an unterminated
string reports a diagnostic and emits no token. -/
def string_arm (rest : List Char) (line : ℕ) : List Token × List Char × ℕ :=
  let content := rest.takeWhile (fun ch => ch ≠ '"')
  let rest2 := rest.dropWhile (fun ch => ch ≠ '"')
  let line2 := line + content.count '\n'
  if rest2.isEmpty then ([], rest2, line2)
  else
    ([⟨.string, String.mk ('"' :: (content ++ ['"'])),
       some (.string (String.mk content)), line2⟩], rest2.tail, line2)

/-- The number arm of `Scanner::scan_token` (`Scanner::number`): a maximal
digit run, plus a fractional part when a `.` is followed by a digit
(`peek`/`peek_next` return `'\0'` past the end). -/
def number_arm (c : Char) (rest : List Char) (line : ℕ) :
    List Token × List Char × ℕ :=
  let ds1 := rest.takeWhile is_digit
  let rest2 := rest.dropWhile is_digit
  if rest2.headD '\x00' = '.' && is_digit ((rest2.drop 1).headD '\x00') then
    let ds2 := (rest2.drop 1).takeWhile is_digit
    let rest4 := (rest2.drop 1).dropWhile is_digit
    ([⟨.number, String.mk ((c :: ds1) ++ '.' :: ds2),
       some (.number (numberValue (c :: ds1) ds2)), line⟩], rest4, line)
  else
    ([⟨.number, String.mk (c :: ds1), some (.number (numberValue (c :: ds1) [])),
       line⟩], rest2, line)

/-- The identifier/keyword arm of `Scanner::scan_token`
(`Scanner::identifier`): a maximal alphanumeric run looked up in the keyword
table, defaulting to a generic identifier. -/
def identifier_arm (c : Char) (rest : List Char) (line : ℕ) :
    List Token × List Char × ℕ :=
  let as2 := rest.takeWhile is_alpha_numeric
  let rest2 := rest.dropWhile is_alpha_numeric
  let text := String.mk (c :: as2)
  ([⟨(keywords.lookup text).getD .identifier, text, none, line⟩], rest2, line)

/-- Embeds one `Scanner::scan_token` step on first character `c` with `rest`
remaining: returns the emitted tokens (zero or one; lexer diagnostics are
side effects that emit none), the remaining characters, and the updated line
counter. -/
def scan_token (c : Char) (rest : List Char) (line : ℕ) :
    List Token × List Char × ℕ :=
  if c = '(' then add_token .leftParen "(" rest line
  else if c = ')' then add_token .rightParen ")" rest line
  else if c = '{' then add_token .leftBrace "\x7b" rest line
  else if c = '}' then add_token .rightBrace "\x7d" rest line
  else if c = ',' then add_token .comma "," rest line
  else if c = '.' then add_token .dot "." rest line
  else if c = '-' then add_token .minus "-" rest line
  else if c = '+' then add_token .plus "+" rest line
  else if c = ';' then add_token .semicolon ";" rest line
  else if c = '*' then add_token .star "*" rest line
  else if c = '!' then two_char_arm .bang .bangEqual "!" "!=" rest line
  else if c = '=' then two_char_arm .equal .equalEqual "=" "==" rest line
  else if c = '<' then two_char_arm .less .lessEqual "<" "<=" rest line
  else if c = '>' then two_char_arm .greater .greaterEqual ">" ">=" rest line
  else if c = '/' then slash_arm rest line
  else if c = ' ' ∨ c = '\r' ∨ c = '\t' then ([], rest, line)
  else if c = '\n' then ([], rest, line + 1)
  else if c = '"' then string_arm rest line
  else if is_digit c then number_arm c rest line
  else if is_alpha c then identifier_arm c rest line
  else ([], rest, line)

/-- Embeds the `while !self.is_at_end()` loop of `Scanner::scan_tokens`,
accumulating the emitted tokens and the line counter.  The Rust loop needs
no fuel; here a structural fuel argument (consuming at least one character
per iteration, `scan_token_spec`, a fuel of `source.length` is always
enough) keeps the recursion kernel-computable. -/
def scanLoop : ℕ → List Char → ℕ → List Token → List Token × ℕ
  | 0, _, line, tokens => (tokens, line)
  | _ + 1, [], line, tokens => (tokens, line)
  | fuel + 1, c :: rest, line, tokens =>
    let r := scan_token c rest line
    scanLoop fuel r.2.1 r.2.2 (tokens ++ r.1)

/-- Embeds `Scanner::scan_tokens` on a fresh `Scanner::new(source)`: run the
scan loop from line 1 over the source characters, then append the single
end-of-input token carrying the final line counter. -/
def scan_tokens (source : String) : List Token :=
  let src := source.toList
  let r := scanLoop src.length src 1 []
  r.1 ++ [⟨.eof, "", none, r.2⟩]

end Scanner

/-! ### Parser

`parser.rs` holds the token vector and a `current` cursor; the embedding
passes `(tokens, current)` explicitly.  The mutually recursive grammar
procedures of the `*_result` path (`parse` calls them; the duplicated
panicking path is dead code for `parse`) are embedded with a structural
fuel argument so the definitions stay kernel-computable; the Rust recursion
terminates on its own, and `parse` supplies fuel that is always sufficient
(each `(`-descent and each loop iteration consumes a token, and one
grammar descent chain crosses at most 16 calls). -/

namespace Parser

/-- Embeds `Parser::peek` (`self.tokens[self.current]`); Rust indexing
panics past the end, which no claim exercises — every scanned token list
ends in `Eof`, and the cursor never passes it.  The default is an
end-of-input token so that `is_at_end` stays true past the end. -/
def peek (tokens : List Token) (current : ℕ) : Token :=
  tokens.getD current ⟨.eof, "", none, 0⟩

/-- Embeds `Parser::previous` (`self.tokens[self.current - 1]`). -/
def previous (tokens : List Token) (current : ℕ) : Token :=
  tokens.getD (current - 1) ⟨.eof, "", none, 0⟩

/-- Embeds `Parser::is_at_end`. -/
def is_at_end (tokens : List Token) (current : ℕ) : Bool :=
  (peek tokens current).token_type = .eof

/-- Embeds `Parser::check`. -/
def check (tokens : List Token) (current : ℕ) (token_type : TokenType) : Bool :=
  !is_at_end tokens current && (peek tokens current).token_type = token_type

/-- Embeds the cursor movement of `Parser::advance` (which returns
`self.previous()` of the new cursor). -/
def advance (tokens : List Token) (current : ℕ) : ℕ :=
  if is_at_end tokens current then current else current + 1

/-- Embeds `Parser::match_tokens`: the Rust `for` loop advances on the first
`check`ed type and returns `true`; since `check` only compares the current
token's type, this is a membership test.  Returns the flag and the new
cursor. -/
def match_tokens (types : List TokenType) (tokens : List Token) (current : ℕ) :
    Bool × ℕ :=
  if types.any (fun token_type => check tokens current token_type) then
    (true, advance tokens current)
  else (false, current)

/-- Embeds `Parser::consume`: on `check` success, advance and return the
consumed token; otherwise a `ParseError` with the given message and the
actual token found. -/
def consume (tokens : List Token) (current : ℕ) (token_type : TokenType)
    (message : String) : Except ParseError (Token × ℕ) :=
  if check tokens current token_type then
    .ok (previous tokens (advance tokens current), advance tokens current)
  else .error ⟨message, peek tokens current⟩

/-- The model-artifact error returned when the fuel runs out; unreachable
for the fuel `parse` supplies. -/
def fuelError : ParseError := ⟨"parser fuel exhausted (model artifact)", ⟨.eof, "", none, 0⟩⟩

/-- One tag per grammar procedure of `parser.rs` (the `*_loop` tags carry
the accumulated left operand of the corresponding Rust `while` loop).  The
Rust methods are mutually recursive; packing them into one fuel-structural
driver (`run_rule`) keeps the embedding kernel-computable, and each tag's
arm below is the verbatim body of the corresponding method. -/
inductive Rule where
  | expression
  | equality
  | equalityLoop (expr : Expr)
  | comparison
  | comparisonLoop (expr : Expr)
  | term
  | termLoop (expr : Expr)
  | factor
  | factorLoop (expr : Expr)
  | unary
  | primary
  | primaryGroup

/-- The mutually recursive grammar procedures of `parser.rs`, one `Rule` arm
per method; every recursive call spends one unit of fuel. -/
def run_rule : ℕ → Rule → List Token → ℕ → Except ParseError (Expr × ℕ)
  | 0, _, _, _ => .error fuelError
  | fuel + 1, rule, tokens, current =>
    match rule with
    | .expression => run_rule fuel .equality tokens current
    | .equality => do
      let (expr, c1) ← run_rule fuel .comparison tokens current
      run_rule fuel (.equalityLoop expr) tokens c1
    | .equalityLoop expr =>
      let m := match_tokens [.bangEqual, .equalEqual] tokens current
      if m.1 then do
        let operator := previous tokens m.2
        let (right, c2) ← run_rule fuel .comparison tokens m.2
        run_rule fuel (.equalityLoop (.binary expr operator right)) tokens c2
      else .ok (expr, current)
    | .comparison => do
      let (expr, c1) ← run_rule fuel .term tokens current
      run_rule fuel (.comparisonLoop expr) tokens c1
    | .comparisonLoop expr =>
      let m := match_tokens [.greater, .greaterEqual, .less, .lessEqual] tokens current
      if m.1 then do
        let operator := previous tokens m.2
        let (right, c2) ← run_rule fuel .term tokens m.2
        run_rule fuel (.comparisonLoop (.binary expr operator right)) tokens c2
      else .ok (expr, current)
    | .term => do
      let (expr, c1) ← run_rule fuel .factor tokens current
      run_rule fuel (.termLoop expr) tokens c1
    | .termLoop expr =>
      let m := match_tokens [.minus, .plus] tokens current
      if m.1 then do
        let operator := previous tokens m.2
        let (right, c2) ← run_rule fuel .factor tokens m.2
        run_rule fuel (.termLoop (.binary expr operator right)) tokens c2
      else .ok (expr, current)
    | .factor => do
      let (expr, c1) ← run_rule fuel .unary tokens current
      run_rule fuel (.factorLoop expr) tokens c1
    | .factorLoop expr =>
      let m := match_tokens [.slash, .star] tokens current
      if m.1 then do
        let operator := previous tokens m.2
        let (right, c2) ← run_rule fuel .unary tokens m.2
        run_rule fuel (.factorLoop (.binary expr operator right)) tokens c2
      else .ok (expr, current)
    | .unary =>
      let m := match_tokens [.bang, .minus] tokens current
      if m.1 then do
        let operator := previous tokens m.2
        let (right, c2) ← run_rule fuel .unary tokens m.2
        .ok (.unary operator right, c2)
      else run_rule fuel .primary tokens current
    | .primary =>
      let mf := match_tokens [.kwFalse] tokens current
      if mf.1 then .ok (.literal (.bool false), mf.2)
      else
        let mt := match_tokens [.kwTrue] tokens current
        if mt.1 then .ok (.literal (.bool true), mt.2)
        else
          let mn := match_tokens [.kwNil] tokens current
          if mn.1 then .ok (.literal .nil, mn.2)
          else
            let mnum := match_tokens [.number, .string] tokens current
            if mnum.1 then
              let token := previous tokens mnum.2
              match token.literal with
              | some (.number n) => .ok (.literal (.number n), mnum.2)
              | some (.string s) => .ok (.literal (.string s), mnum.2)
              | some _ => .error ⟨"Unexpected literal type", token⟩
              | none => run_rule fuel .primaryGroup tokens mnum.2
            else run_rule fuel .primaryGroup tokens current
    | .primaryGroup =>
      let mp := match_tokens [.leftParen] tokens current
      if mp.1 then do
        let (expr, c2) ← run_rule fuel .expression tokens mp.2
        let (_, c3) ← consume tokens c2 .rightParen "Expect ')' after expression."
        .ok (.grouping expr, c3)
      else .error ⟨"Expect expression.", peek tokens current⟩

/-- Embeds `Parser::expression_result`. -/
def expression_result (fuel : ℕ) (tokens : List Token) (current : ℕ) :
    Except ParseError (Expr × ℕ) :=
  run_rule fuel .expression tokens current

/-- Embeds `Parser::equality_result`. -/
def equality_result (fuel : ℕ) (tokens : List Token) (current : ℕ) :
    Except ParseError (Expr × ℕ) :=
  run_rule fuel .equality tokens current

/-- Embeds `Parser::comparison_result`. -/
def comparison_result (fuel : ℕ) (tokens : List Token) (current : ℕ) :
    Except ParseError (Expr × ℕ) :=
  run_rule fuel .comparison tokens current

/-- Embeds `Parser::term_result`. -/
def term_result (fuel : ℕ) (tokens : List Token) (current : ℕ) :
    Except ParseError (Expr × ℕ) :=
  run_rule fuel .term tokens current

/-- Embeds `Parser::factor_result`. -/
def factor_result (fuel : ℕ) (tokens : List Token) (current : ℕ) :
    Except ParseError (Expr × ℕ) :=
  run_rule fuel .factor tokens current

/-- Embeds `Parser::unary_result`. -/
def unary_result (fuel : ℕ) (tokens : List Token) (current : ℕ) :
    Except ParseError (Expr × ℕ) :=
  run_rule fuel .unary tokens current

/-- Embeds `Parser::primary_result`. -/
def primary_result (fuel : ℕ) (tokens : List Token) (current : ℕ) :
    Except ParseError (Expr × ℕ) :=
  run_rule fuel .primary tokens current

/-- The fuel `parse` supplies: ample for the deepest possible descent over
the given token list. -/
def parseFuel (tokens : List Token) : ℕ := 16 * tokens.length + 16

/-- Embeds `Parser::parse` on a fresh `Parser::new(tokens)` (cursor 0): the
result of `expression_result`, dropping the internal cursor. -/
def parse (tokens : List Token) : Except ParseError Expr :=
  match expression_result (parseFuel tokens) tokens 0 with
  | .ok (expr, _) => .ok expr
  | .error e => .error e

end Parser

/-- The line on which the character at index `i` of `src` sits: one more
than the number of newline characters strictly before it (a newline
character itself terminates the line it sits on). -/
def lineOfChar (src : List Char) (i : Nat) : Nat := 1 + (src.take i).count '\n'

/-! ### Scanner lemmas -/

theorem length_tail_le {α : Type} (l : List α) : l.tail.length ≤ l.length := by
  cases l <;> simp

theorem length_dropWhile_le {α : Type} (p : α → Bool) (l : List α) :
    (l.dropWhile p).length ≤ l.length := by
  induction l with
  | nil => simp
  | cons a l ih =>
    simp only [List.dropWhile_cons]
    split
    · exact le_trans ih (Nat.le_succ _)
    · simp

theorem length_drop_le {α : Type} (n : ℕ) (l : List α) :
    (l.drop n).length ≤ l.length := by
  simp [List.length_drop]

theorem count_cons_ne (a b : Char) (l : List Char) (h : b ≠ a) :
    (b :: l).count a = l.count a := by
  simp [List.count_cons, h]

/-- Dropping characters that satisfy `p` cannot change the number of
occurrences of a character `a` with `p a = false`. -/
theorem count_dropWhile_eq (p : Char → Bool) (a : Char) (l : List Char)
    (h : p a = false) : (l.dropWhile p).count a = l.count a := by
  induction l with
  | nil => rfl
  | cons b l ih =>
    by_cases hb : p b
    · have hba : b ≠ a := fun e => by rw [e, h] at hb; exact Bool.noConfusion hb
      rw [List.dropWhile_cons_of_pos hb, ih, count_cons_ne a b l hba]
    · rw [List.dropWhile_cons_of_neg hb]

/-- The first character surviving `dropWhile p` falsifies `p`. -/
theorem dropWhile_head_false (p : Char → Bool) (l : List Char) :
    l.dropWhile p = [] ∨
      ∃ x t, l.dropWhile p = x :: t ∧ p x = false := by
  induction l with
  | nil => exact Or.inl rfl
  | cons a l ih =>
    by_cases h : p a
    · rw [List.dropWhile_cons_of_pos h]; exact ih
    · exact Or.inr ⟨a, l, List.dropWhile_cons_of_neg h, by simpa using h⟩

/-- The characters of a list split as the `takeWhile` prefix followed by the
`dropWhile` suffix, so character counts add up. -/
theorem count_takeWhile_add_dropWhile (p : Char → Bool) (a : Char) (l : List Char) :
    (l.takeWhile p).count a + (l.dropWhile p).count a = l.count a := by
  conv_rhs => rw [← List.takeWhile_append_dropWhile p l]
  rw [List.count_append]

theorem lookup_mem_values {α β : Type} [BEq α] (l : List (α × β)) (a : α) (b : β)
    (h : l.lookup a = some b) : b ∈ l.map Prod.snd := by
  induction l with
  | nil => simp [List.lookup] at h
  | cons p l ih =>
    rcases p with ⟨k, v⟩
    by_cases hk : a == k
    · simp [List.lookup, hk] at h
      simp [h]
    · simp only [List.lookup, hk] at h
      simp [ih h]

namespace Scanner

/-- Whatever the keyword table yields (or its identifier default), it is
never the end-of-input kind. -/
theorem keywords_getD_ne_eof (s : String) :
    (keywords.lookup s).getD TokenType.identifier ≠ TokenType.eof := by
  rcases h : keywords.lookup s with _ | k
  · simp
  · have hk := lookup_mem_values _ _ _ h
    have hall : ∀ x ∈ keywords.map Prod.snd, x ≠ TokenType.eof := by decide
    simp only [Option.getD_some]
    exact hall k hk

/-- Combined facts about `two_char_arm`: it only consumes, emits no
end-of-input token when neither kind is `Eof`, and the line counter is
untouched (neither the trigger character nor `=` is a newline). -/
theorem two_char_arm_spec (one two : TokenType) (lexOne lexTwo : String)
    (h1 : one ≠ TokenType.eof) (h2 : two ≠ TokenType.eof)
    (rest : List Char) (line : ℕ) :
    (two_char_arm one two lexOne lexTwo rest line).2.1.length ≤ rest.length ∧
    (∀ t ∈ (two_char_arm one two lexOne lexTwo rest line).1,
      t.token_type ≠ TokenType.eof) ∧
    (two_char_arm one two lexOne lexTwo rest line).2.2 +
        (two_char_arm one two lexOne lexTwo rest line).2.1.count '\n' =
      line + rest.count '\n' := by
  unfold two_char_arm
  split
  · rename_i rest2
    refine ⟨by simp [add_token], by simp [add_token, h2], ?_⟩
    dsimp only [add_token]
    rw [count_cons_ne '\n' '=' rest2 (by decide)]
  · refine ⟨by simp [add_token], by simp [add_token, h1], ?_⟩
    dsimp only [add_token]

/-- Combined facts about `slash_arm`: it only consumes, emits no
end-of-input token, and comments never swallow a newline. -/
theorem slash_arm_spec (rest : List Char) (line : ℕ) :
    (slash_arm rest line).2.1.length ≤ rest.length ∧
    (∀ t ∈ (slash_arm rest line).1, t.token_type ≠ TokenType.eof) ∧
    (slash_arm rest line).2.2 + (slash_arm rest line).2.1.count '\n' =
      line + rest.count '\n' := by
  unfold slash_arm
  split
  · rename_i rest2
    refine ⟨?_, by simp, ?_⟩
    · dsimp only
      exact le_trans (length_dropWhile_le _ _) (by simp)
    · dsimp only
      rw [count_dropWhile_eq (fun ch => ch ≠ '\n') '\n' rest2 (by simp),
        count_cons_ne '\n' '/' rest2 (by decide)]
  · refine ⟨by simp [add_token], by simp [add_token], ?_⟩
    dsimp only [add_token]

/-- Combined facts about `string_arm`: it only consumes, emits no
end-of-input token, and advances the line counter by exactly the newlines it
consumes. -/
theorem string_arm_spec (rest : List Char) (line : ℕ) :
    (string_arm rest line).2.1.length ≤ rest.length ∧
    (∀ t ∈ (string_arm rest line).1, t.token_type ≠ TokenType.eof) ∧
    (string_arm rest line).2.2 + (string_arm rest line).2.1.count '\n' =
      line + rest.count '\n' := by
  have hsplit := count_takeWhile_add_dropWhile (fun ch => ch ≠ '"') '\n' rest
  unfold string_arm
  dsimp only
  split
  · refine ⟨length_dropWhile_le _ _, by simp, ?_⟩
    dsimp only
    omega
  · rename_i hne
    rcases dropWhile_head_false (fun ch => ch ≠ '"') rest with hnil | ⟨x, t, heq, hx⟩
    · rw [hnil] at hne; simp at hne
    · have hx2 : x = '"' := by simpa using hx
      subst hx2
      refine ⟨?_, by simp, ?_⟩
      · dsimp only
        rw [heq]
        simp only [List.tail_cons]
        calc t.length ≤ ('"' :: t).length := by simp
          _ = (rest.dropWhile (fun ch => ch ≠ '"')).length := by rw [heq]
          _ ≤ rest.length := length_dropWhile_le _ _
      · dsimp only
        rw [heq] at hsplit ⊢
        simp only [List.tail_cons]
        rw [count_cons_ne '\n' '"' t (by decide)] at hsplit
        omega

/-- Combined facts about `number_arm`: it only consumes, emits no
end-of-input token, and leaves the line counter alone (digits and `.` are
not newlines). -/
theorem number_arm_spec (c : Char) (rest : List Char) (line : ℕ) :
    (number_arm c rest line).2.1.length ≤ rest.length ∧
    (∀ t ∈ (number_arm c rest line).1, t.token_type ≠ TokenType.eof) ∧
    (number_arm c rest line).2.2 + (number_arm c rest line).2.1.count '\n' =
      line + rest.count '\n' := by
  have hrest2 := count_dropWhile_eq is_digit '\n' rest (by decide)
  unfold number_arm
  dsimp only
  split
  · rename_i hdot
    rcases dropWhile_head_false is_digit rest with hnil | ⟨x, t, heq, hx⟩
    · rw [hnil] at hdot; simp at hdot
    · have hx2 : x = '.' := by
        rw [heq] at hdot
        simp at hdot
        exact hdot.1
      subst hx2
      refine ⟨?_, by simp, ?_⟩
      · dsimp only
        rw [heq]
        calc ((('.' :: t).drop 1).dropWhile is_digit).length
            ≤ (('.' :: t).drop 1).length := length_dropWhile_le _ _
          _ ≤ ('.' :: t).length := length_drop_le _ _
          _ = (rest.dropWhile is_digit).length := by rw [heq]
          _ ≤ rest.length := length_dropWhile_le _ _
      · dsimp only
        rw [heq]
        have ht : ((('.' :: t).drop 1).dropWhile is_digit).count '\n' =
            t.count '\n' := by
          simpa using count_dropWhile_eq is_digit '\n' t (by decide)
        rw [ht]
        rw [heq, count_cons_ne '\n' '.' t (by decide)] at hrest2
        omega
  · refine ⟨length_dropWhile_le _ _, by simp, ?_⟩
    dsimp only
    omega

/-- Combined facts about `identifier_arm`: it only consumes, emits no
end-of-input token (keywords and identifiers are never `Eof`), and leaves
the line counter alone. -/
theorem identifier_arm_spec (c : Char) (rest : List Char) (line : ℕ) :
    (identifier_arm c rest line).2.1.length ≤ rest.length ∧
    (∀ t ∈ (identifier_arm c rest line).1, t.token_type ≠ TokenType.eof) ∧
    (identifier_arm c rest line).2.2 + (identifier_arm c rest line).2.1.count '\n' =
      line + rest.count '\n' := by
  have hrest2 := count_dropWhile_eq is_alpha_numeric '\n' rest (by decide)
  unfold identifier_arm
  dsimp only
  refine ⟨length_dropWhile_le _ _, ?_, by omega⟩
  intro t ht
  simp only [List.mem_singleton] at ht
  subst ht
  exact keywords_getD_ne_eof _




/-- Combined facts about one `scan_token` step: it only consumes characters,
never emits an end-of-input token, and advances the line counter by exactly
the number of newline characters it consumes. -/
theorem scan_token_spec (c : Char) (rest : List Char) (line : ℕ) :
    (scan_token c rest line).2.1.length ≤ rest.length ∧
    (∀ t ∈ (scan_token c rest line).1, t.token_type ≠ TokenType.eof) ∧
    (scan_token c rest line).2.2 + (scan_token c rest line).2.1.count '\n' =
      line + (c :: rest).count '\n' := by
  by_cases h1 : c = '('
  · subst h1; exact ⟨Nat.le_refl _, by simp [scan_token, add_token],
      by rw [count_cons_ne '\n' '(' rest (by decide)]; exact rfl⟩
  by_cases h2 : c = ')'
  · subst h2; exact ⟨Nat.le_refl _, by simp [scan_token, add_token],
      by rw [count_cons_ne '\n' ')' rest (by decide)]; exact rfl⟩
  by_cases h3 : c = '{'
  · subst h3; exact ⟨Nat.le_refl _, by simp [scan_token, add_token],
      by rw [count_cons_ne '\n' '{' rest (by decide)]; exact rfl⟩
  by_cases h4 : c = '}'
  · subst h4; exact ⟨Nat.le_refl _, by simp [scan_token, add_token],
      by rw [count_cons_ne '\n' '}' rest (by decide)]; exact rfl⟩
  by_cases h5 : c = ','
  · subst h5; exact ⟨Nat.le_refl _, by simp [scan_token, add_token],
      by rw [count_cons_ne '\n' ',' rest (by decide)]; exact rfl⟩
  by_cases h6 : c = '.'
  · subst h6; exact ⟨Nat.le_refl _, by simp [scan_token, add_token],
      by rw [count_cons_ne '\n' '.' rest (by decide)]; exact rfl⟩
  by_cases h7 : c = '-'
  · subst h7; exact ⟨Nat.le_refl _, by simp [scan_token, add_token],
      by rw [count_cons_ne '\n' '-' rest (by decide)]; exact rfl⟩
  by_cases h8 : c = '+'
  · subst h8; exact ⟨Nat.le_refl _, by simp [scan_token, add_token],
      by rw [count_cons_ne '\n' '+' rest (by decide)]; exact rfl⟩
  by_cases h9 : c = ';'
  · subst h9; exact ⟨Nat.le_refl _, by simp [scan_token, add_token],
      by rw [count_cons_ne '\n' ';' rest (by decide)]; exact rfl⟩
  by_cases h10 : c = '*'
  · subst h10; exact ⟨Nat.le_refl _, by simp [scan_token, add_token],
      by rw [count_cons_ne '\n' '*' rest (by decide)]; exact rfl⟩
  by_cases h11 : c = '!'
  · subst h11
    have hs := two_char_arm_spec .bang .bangEqual "!" "!=" (by decide) (by decide) rest line
    exact ⟨hs.1, hs.2.1, by rw [count_cons_ne '\n' '!' rest (by decide)]; exact hs.2.2⟩
  by_cases h12 : c = '='
  · subst h12
    have hs := two_char_arm_spec .equal .equalEqual "=" "==" (by decide) (by decide) rest line
    exact ⟨hs.1, hs.2.1, by rw [count_cons_ne '\n' '=' rest (by decide)]; exact hs.2.2⟩
  by_cases h13 : c = '<'
  · subst h13
    have hs := two_char_arm_spec .less .lessEqual "<" "<=" (by decide) (by decide) rest line
    exact ⟨hs.1, hs.2.1, by rw [count_cons_ne '\n' '<' rest (by decide)]; exact hs.2.2⟩
  by_cases h14 : c = '>'
  · subst h14
    have hs := two_char_arm_spec .greater .greaterEqual ">" ">=" (by decide) (by decide) rest line
    exact ⟨hs.1, hs.2.1, by rw [count_cons_ne '\n' '>' rest (by decide)]; exact hs.2.2⟩
  by_cases h15 : c = '/'
  · subst h15
    have hs := slash_arm_spec rest line
    exact ⟨hs.1, hs.2.1, by rw [count_cons_ne '\n' '/' rest (by decide)]; exact hs.2.2⟩
  by_cases h16 : c = ' ' ∨ c = '\r' ∨ c = '\t'
  · rcases h16 with h | h | h
    · subst h; exact ⟨Nat.le_refl _, fun t ht => absurd ht (List.not_mem_nil t),
        by rw [count_cons_ne '\n' ' ' rest (by decide)]; exact rfl⟩
    · subst h; exact ⟨Nat.le_refl _, fun t ht => absurd ht (List.not_mem_nil t),
        by rw [count_cons_ne '\n' '\r' rest (by decide)]; exact rfl⟩
    · subst h; exact ⟨Nat.le_refl _, fun t ht => absurd ht (List.not_mem_nil t),
        by rw [count_cons_ne '\n' '\t' rest (by decide)]; exact rfl⟩
  by_cases h17 : c = '\n'
  · subst h17
    refine ⟨Nat.le_refl _, fun t ht => absurd ht (List.not_mem_nil t), ?_⟩
    have hc : (('\n' :: rest).count '\n') = rest.count '\n' + 1 := by
      simp [List.count_cons]
    show (line + 1) + rest.count '\n' = line + ('\n' :: rest).count '\n'
    omega
  by_cases h18 : c = '"'
  · subst h18
    have hs := string_arm_spec rest line
    exact ⟨hs.1, hs.2.1, by rw [count_cons_ne '\n' '"' rest (by decide)]; exact hs.2.2⟩
  by_cases h19 : is_digit c
  · have e : scan_token c rest line = number_arm c rest line := by
      unfold scan_token
      rw [if_neg h1, if_neg h2, if_neg h3, if_neg h4, if_neg h5, if_neg h6,
        if_neg h7, if_neg h8, if_neg h9, if_neg h10, if_neg h11, if_neg h12,
        if_neg h13, if_neg h14, if_neg h15, if_neg h16, if_neg h17, if_neg h18,
        if_pos h19]
    rw [e, count_cons_ne '\n' c rest h17]
    exact number_arm_spec c rest line
  by_cases h20 : is_alpha c
  · have e : scan_token c rest line = identifier_arm c rest line := by
      unfold scan_token
      rw [if_neg h1, if_neg h2, if_neg h3, if_neg h4, if_neg h5, if_neg h6,
        if_neg h7, if_neg h8, if_neg h9, if_neg h10, if_neg h11, if_neg h12,
        if_neg h13, if_neg h14, if_neg h15, if_neg h16, if_neg h17, if_neg h18,
        if_neg h19, if_pos h20]
    rw [e, count_cons_ne '\n' c rest h17]
    exact identifier_arm_spec c rest line
  · have e : scan_token c rest line = ([], rest, line) := by
      unfold scan_token
      rw [if_neg h1, if_neg h2, if_neg h3, if_neg h4, if_neg h5, if_neg h6,
        if_neg h7, if_neg h8, if_neg h9, if_neg h10, if_neg h11, if_neg h12,
        if_neg h13, if_neg h14, if_neg h15, if_neg h16, if_neg h17, if_neg h18,
        if_neg h19, if_neg h20]
    rw [e, count_cons_ne '\n' c rest h17]
    exact ⟨Nat.le_refl _, fun t ht => absurd ht (List.not_mem_nil t), rfl⟩

/-- With enough fuel, the scan loop appends only non-end-of-input tokens and
its final line counter is the starting line plus the number of newline
characters in the source. -/
theorem scanLoop_spec : ∀ (fuel : ℕ) (src : List Char), src.length ≤ fuel →
    ∀ (line : ℕ) (tokens : List Token),
    ∃ fresh, (scanLoop fuel src line tokens).1 = tokens ++ fresh ∧
      (∀ t ∈ fresh, t.token_type ≠ TokenType.eof) ∧
      (scanLoop fuel src line tokens).2 = line + src.count '\n' := by
  intro fuel
  induction fuel with
  | zero =>
    intro src h line tokens
    have hsrc : src = [] := List.length_eq_zero.mp (Nat.le_zero.mp h)
    subst hsrc
    exact ⟨[], by simp [scanLoop], by simp, by simp [scanLoop]⟩
  | succ fuel ih =>
    intro src h line tokens
    cases src with
    | nil => exact ⟨[], by simp [scanLoop], by simp, by simp [scanLoop]⟩
    | cons c rest =>
      have hs := scan_token_spec c rest line
      have hlen : (scan_token c rest line).2.1.length ≤ fuel :=
        le_trans hs.1 (by simpa using h)
      obtain ⟨fresh2, e1, e2, e3⟩ :=
        ih (scan_token c rest line).2.1 hlen (scan_token c rest line).2.2
          (tokens ++ (scan_token c rest line).1)
      refine ⟨(scan_token c rest line).1 ++ fresh2, ?_, ?_, ?_⟩
      · show (scanLoop (fuel + 1) (c :: rest) line tokens).1 = _
        simp only [scanLoop]
        rw [e1, List.append_assoc]
      · intro t ht
        rcases List.mem_append.mp ht with h' | h'
        · exact hs.2.1 t h'
        · exact e2 t h'
      · show (scanLoop (fuel + 1) (c :: rest) line tokens).2 = _
        simp only [scanLoop]
        rw [e3]
        have h22 := hs.2.2
        omega


end Scanner

/-! ### Claim theorems -/

/-- C3 (amended): evaluating a Binary `/` node whose operands both evaluate
to Numbers fails with "Division by zero." exactly when the right operand
equals zero (the check happens before the division), and otherwise returns
the quotient; non-numeric operands fail with "Operands must be numbers."
The original claim's further clause — that the zero check means `/` never
produces a float-infinity — is refuted by the counterexample below: the
check only rules out a zero divisor, not binary64 overflow of the
quotient. -/
theorem C3_division_by_zero :
    (∀ (e1 e2 : Expr) (operator : Token) (l r : ℚ),
      operator.token_type = TokenType.slash →
      evaluate e1 = .ok (.number l) → evaluate e2 = .ok (.number r) →
      evaluate (.binary e1 operator e2) =
        if r = 0 then .error ⟨operator, "Division by zero."⟩
        else .ok (.number (l / r))) ∧
    (∀ (e1 e2 : Expr) (operator : Token) (v1 v2 : LoxValue),
      operator.token_type = TokenType.slash →
      evaluate e1 = .ok v1 → evaluate e2 = .ok v2 →
      (v1.as_number = none ∨ v2.as_number = none) →
      evaluate (.binary e1 operator e2) =
        .error ⟨operator, "Operands must be numbers."⟩) := by
  constructor
  · intro e1 e2 operator l r hop h1 h2
    simp only [evaluate, h1, h2, visit_binary_op, hop, LoxValue.as_number]
  · intro e1 e2 operator v1 v2 hop h1 h2 hn
    rcases hv1 : v1.as_number with _ | l <;> rcases hv2 : v2.as_number with _ | r
    · simp only [evaluate, h1, h2, visit_binary_op, hop, hv1, hv2]
    · simp only [evaluate, h1, h2, visit_binary_op, hop, hv1, hv2]
    · simp only [evaluate, h1, h2, visit_binary_op, hop, hv1, hv2]
    · rcases hn with hn | hn
      · rw [hv1] at hn; exact absurd hn (by simp)
      · rw [hv2] at hn; exact absurd hn (by simp)

/-- Witness for C3 at `1 / 0`. -/
theorem C3_division_by_zero_witness :
    evaluate (.binary (.literal (.number 1)) ⟨.slash, "/", none, 1⟩
      (.literal (.number 0))) =
      .error ⟨⟨.slash, "/", none, 1⟩, "Division by zero."⟩ := by
  have h := C3_division_by_zero.1 (.literal (.number 1)) (.literal (.number 0))
    ⟨.slash, "/", none, 1⟩ 1 0 rfl rfl rfl
  simpa using h

/-- C3 counterexample to the original no-infinity clause: with left operand
`f64::MAX` and right operand `0.5` (both exactly representable finite
binary64 values), the right operand is nonzero, so the Slash arm's zero
check passes and the division is performed — yet the exact quotient
`f64::MAX / 0.5` reaches the binary64 overflow threshold, so the source's
machine division produces a float infinity.  The `/` operator therefore
does produce an infinity for this pair of numeric operands. -/
theorem C3_counterexample :
    (1 / 2 : ℚ) ≠ 0 ∧
    visit_binary_op ⟨.slash, "/", none, 1⟩ (.number f64MaxFinite)
      (.number (1 / 2)) = .ok (.number (f64MaxFinite / (1 / 2))) ∧
    f64DivOverflows f64MaxFinite (1 / 2) = true := by
  refine ⟨by norm_num, ?_, ?_⟩
  · simp only [visit_binary_op, LoxValue.as_number]
    rw [if_neg (by norm_num)]
  · unfold f64DivOverflows
    rw [decide_eq_true_eq]
    refine le_trans ?_ (le_abs_self _)
    have h : f64MaxFinite / (1 / 2) = (2 ^ 53 - 1) * 2 ^ 972 := by
      unfold f64MaxFinite
      ring
    rw [h]
    unfold f64OverflowThreshold
    norm_num

/-- C6: `==`/`!=` always succeed once their operands have evaluated, use the
derived structural equality (equal only when kind and payload agree;
cross-kind comparisons such as Number vs String or Nil vs Bool false are
unequal), and `!=` is the boolean negation of `==`. -/
theorem C6_structural_equality :
    (∀ (e1 e2 : Expr) (operator : Token) (v1 v2 : LoxValue),
      operator.token_type = TokenType.equalEqual →
      evaluate e1 = .ok v1 → evaluate e2 = .ok v2 →
      evaluate (.binary e1 operator e2) = .ok (.bool (is_equal v1 v2))) ∧
    (∀ (e1 e2 : Expr) (operator : Token) (v1 v2 : LoxValue),
      operator.token_type = TokenType.bangEqual →
      evaluate e1 = .ok v1 → evaluate e2 = .ok v2 →
      evaluate (.binary e1 operator e2) = .ok (.bool (!is_equal v1 v2))) ∧
    (∀ v1 v2 : LoxValue, is_equal v1 v2 = true ↔ v1 = v2) ∧
    (∀ (n : ℚ) (s : String), is_equal (.number n) (.string s) = false) ∧
    is_equal .nil (.bool false) = false := by
  refine ⟨?_, ?_, ?_, ?_, rfl⟩
  · intro e1 e2 operator v1 v2 hop h1 h2
    simp only [evaluate, h1, h2, visit_binary_op, hop]
  · intro e1 e2 operator v1 v2 hop h1 h2
    simp only [evaluate, h1, h2, visit_binary_op, hop]
  · intro v1 v2
    simp [is_equal]
  · intro n s
    simp [is_equal]

/-- Witness for C6 at `Number 1 == String "1"`. -/
theorem C6_structural_equality_witness :
    evaluate (.binary (.literal (.number 1)) ⟨.equalEqual, "==", none, 1⟩
      (.literal (.string "1"))) = .ok (.bool false) := by
  have h := C6_structural_equality.1 (.literal (.number 1)) (.literal (.string "1"))
    ⟨.equalEqual, "==", none, 1⟩ (.number 1) (.string "1") rfl rfl rfl
  rw [h]
  rfl

/-- C7: truthiness maps exactly `Bool false` and `Nil` to false and every
other value (including `Number 0` and the empty string) to true, and unary
`!` never fails, returning the negated truthiness of its operand. -/
theorem C7_truthiness :
    LoxValue.is_truthy (.bool false) = false ∧
    LoxValue.is_truthy .nil = false ∧
    (∀ v : LoxValue, v ≠ .bool false → v ≠ .nil → v.is_truthy = true) ∧
    (∀ (e : Expr) (operator : Token) (v : LoxValue),
      operator.token_type = TokenType.bang →
      evaluate e = .ok v →
      evaluate (.unary operator e) = .ok (.bool (!v.is_truthy))) := by
  refine ⟨rfl, rfl, ?_, ?_⟩
  · intro v h1 h2
    cases v with
    | bool b => cases b with
      | false => exact absurd rfl h1
      | true => rfl
    | nil => exact absurd rfl h2
    | number n => rfl
    | string s => rfl
  · intro e operator v hop hv
    simp only [evaluate, hv, hop]

/-- Witness for C7 at `!0` (zero is truthy, so the result is false). -/
theorem C7_truthiness_witness :
    evaluate (.unary ⟨.bang, "!", none, 1⟩ (.literal (.number 0))) =
      .ok (.bool false) := by
  have h := C7_truthiness.2.2.2 (.literal (.number 0)) ⟨.bang, "!", none, 1⟩
    (.number 0) rfl rfl
  simpa using h

/-- C10: every reserved, unevaluated variant (Assign, Call, Get, Logical,
Set, Super, This, Variable) evaluates to the fixed "not yet implemented"
failure carrying the dummy end-of-input token with empty lexeme and line 0,
independently of the tokens inside the offending expression. -/
theorem C10_reserved_variants :
    dummyToken = ⟨TokenType.eof, "", none, 0⟩ ∧
    (∀ (name : Token) (value : Expr), evaluate (.assign name value) =
      .error ⟨dummyToken, "This expression type is not yet implemented"⟩) ∧
    (∀ (callee : Expr) (paren : Token) (arguments : List Expr),
      evaluate (.call callee paren arguments) =
      .error ⟨dummyToken, "This expression type is not yet implemented"⟩) ∧
    (∀ (object : Expr) (name : Token), evaluate (.get object name) =
      .error ⟨dummyToken, "This expression type is not yet implemented"⟩) ∧
    (∀ (left : Expr) (operator : Token) (right : Expr),
      evaluate (.logical left operator right) =
      .error ⟨dummyToken, "This expression type is not yet implemented"⟩) ∧
    (∀ (object : Expr) (name : Token) (value : Expr),
      evaluate (.set object name value) =
      .error ⟨dummyToken, "This expression type is not yet implemented"⟩) ∧
    (∀ (keyword method : Token), evaluate (.superE keyword method) =
      .error ⟨dummyToken, "This expression type is not yet implemented"⟩) ∧
    (∀ (keyword : Token), evaluate (.thisE keyword) =
      .error ⟨dummyToken, "This expression type is not yet implemented"⟩) ∧
    (∀ (name : Token), evaluate (.variableE name) =
      .error ⟨dummyToken, "This expression type is not yet implemented"⟩) :=
  ⟨rfl, fun _ _ => rfl, fun _ _ _ => rfl, fun _ _ => rfl, fun _ _ _ => rfl,
    fun _ _ _ => rfl, fun _ _ => rfl, fun _ => rfl, fun _ => rfl⟩

unseal Rat.ofScientific Rat.add Rat.sub Rat.mul Rat.inv in
/-- C4: the end-to-end pipeline on `"-123 * (45.67)"`: scanning then parsing
succeeds, the tree prints as `"(* (- 123) (group 45.67))"`, and evaluating
it yields `Number (-5617.41)` (exact in the rational number model). -/
theorem C4_end_to_end :
    ∃ e : Expr,
      Parser.parse (Scanner.scan_tokens "-123 * (45.67)") = .ok e ∧
      AstPrinter.print e = "(* (- 123) (group 45.67))" ∧
      evaluate e = .ok (.number (-5617.41)) :=
  ⟨.binary (.unary ⟨.minus, "-", none, 1⟩ (.literal (.number 123)))
      ⟨.star, "*", none, 1⟩ (.grouping (.literal (.number 45.67))),
    rfl, rfl, rfl⟩

unseal Rat.ofScientific Rat.add Rat.sub Rat.mul Rat.inv in
/-- C5: each binary level's loop folds the accumulated expression as the
*left* child of the next Binary node (stated for all four levels), so
operator chains associate left and higher levels bind tighter:
`"8 - 4 - 2"` parses to `((8 - 4) - 2)` and evaluates to `Number 2`, and
`"2 + 3 * 4"` parses to a tree printing `"(+ 2 (* 3 4))"` that evaluates to
`Number 14`. -/
theorem C5_left_associativity :
    (∀ (fuel : ℕ) (tokens : List Token) (expr right : Expr) (current c2 : ℕ),
      (Parser.match_tokens [TokenType.bangEqual, TokenType.equalEqual] tokens current).1 = true →
      Parser.run_rule fuel .comparison tokens
          (Parser.match_tokens [TokenType.bangEqual, TokenType.equalEqual] tokens current).2 =
        .ok (right, c2) →
      Parser.run_rule (fuel + 1) (.equalityLoop expr) tokens current =
        Parser.run_rule fuel (.equalityLoop (.binary expr
          (Parser.previous tokens
            (Parser.match_tokens [TokenType.bangEqual, TokenType.equalEqual] tokens current).2)
          right)) tokens c2) ∧
    (∀ (fuel : ℕ) (tokens : List Token) (expr right : Expr) (current c2 : ℕ),
      (Parser.match_tokens [TokenType.greater, TokenType.greaterEqual, TokenType.less,
          TokenType.lessEqual] tokens current).1 = true →
      Parser.run_rule fuel .term tokens
          (Parser.match_tokens [TokenType.greater, TokenType.greaterEqual, TokenType.less,
            TokenType.lessEqual] tokens current).2 = .ok (right, c2) →
      Parser.run_rule (fuel + 1) (.comparisonLoop expr) tokens current =
        Parser.run_rule fuel (.comparisonLoop (.binary expr
          (Parser.previous tokens
            (Parser.match_tokens [TokenType.greater, TokenType.greaterEqual, TokenType.less,
              TokenType.lessEqual] tokens current).2)
          right)) tokens c2) ∧
    (∀ (fuel : ℕ) (tokens : List Token) (expr right : Expr) (current c2 : ℕ),
      (Parser.match_tokens [TokenType.minus, TokenType.plus] tokens current).1 = true →
      Parser.run_rule fuel .factor tokens
          (Parser.match_tokens [TokenType.minus, TokenType.plus] tokens current).2 =
        .ok (right, c2) →
      Parser.run_rule (fuel + 1) (.termLoop expr) tokens current =
        Parser.run_rule fuel (.termLoop (.binary expr
          (Parser.previous tokens
            (Parser.match_tokens [TokenType.minus, TokenType.plus] tokens current).2)
          right)) tokens c2) ∧
    (∀ (fuel : ℕ) (tokens : List Token) (expr right : Expr) (current c2 : ℕ),
      (Parser.match_tokens [TokenType.slash, TokenType.star] tokens current).1 = true →
      Parser.run_rule fuel .unary tokens
          (Parser.match_tokens [TokenType.slash, TokenType.star] tokens current).2 =
        .ok (right, c2) →
      Parser.run_rule (fuel + 1) (.factorLoop expr) tokens current =
        Parser.run_rule fuel (.factorLoop (.binary expr
          (Parser.previous tokens
            (Parser.match_tokens [TokenType.slash, TokenType.star] tokens current).2)
          right)) tokens c2) ∧
    (Parser.parse (Scanner.scan_tokens "8 - 4 - 2") =
      .ok (.binary (.binary (.literal (.number 8)) ⟨.minus, "-", none, 1⟩
        (.literal (.number 4))) ⟨.minus, "-", none, 1⟩ (.literal (.number 2)))) ∧
    (evaluate (.binary (.binary (.literal (.number 8)) ⟨.minus, "-", none, 1⟩
        (.literal (.number 4))) ⟨.minus, "-", none, 1⟩ (.literal (.number 2))) =
      .ok (.number 2)) ∧
    (Parser.parse (Scanner.scan_tokens "2 + 3 * 4") =
      .ok (.binary (.literal (.number 2)) ⟨.plus, "+", none, 1⟩
        (.binary (.literal (.number 3)) ⟨.star, "*", none, 1⟩ (.literal (.number 4))))) ∧
    (AstPrinter.print (.binary (.literal (.number 2)) ⟨.plus, "+", none, 1⟩
        (.binary (.literal (.number 3)) ⟨.star, "*", none, 1⟩ (.literal (.number 4)))) =
      "(+ 2 (* 3 4))") ∧
    (evaluate (.binary (.literal (.number 2)) ⟨.plus, "+", none, 1⟩
        (.binary (.literal (.number 3)) ⟨.star, "*", none, 1⟩ (.literal (.number 4)))) =
      .ok (.number 14)) := by
  refine ⟨?_, ?_, ?_, ?_, rfl, rfl, rfl, rfl, rfl⟩ <;>
    (intro fuel tokens expr right current c2 hm hsub
     simp only [Parser.run_rule, hm, if_true, hsub, Except.bind]
     rfl)

/-- Witness for C5's fold-step clauses at the token suffix `- 4` with an
accumulated left operand `8`. -/
theorem C5_left_associativity_witness :
    Parser.run_rule 11 (.termLoop (.literal (.number 8)))
      [⟨.minus, "-", none, 1⟩, ⟨.number, "4", some (.number 4), 1⟩, ⟨.eof, "", none, 1⟩] 0 =
    Parser.run_rule 10 (.termLoop (.binary (.literal (.number 8)) ⟨.minus, "-", none, 1⟩
      (.literal (.number 4))))
      [⟨.minus, "-", none, 1⟩, ⟨.number, "4", some (.number 4), 1⟩, ⟨.eof, "", none, 1⟩] 2 :=
  C5_left_associativity.2.2.1 10
    [⟨.minus, "-", none, 1⟩, ⟨.number, "4", some (.number 4), 1⟩, ⟨.eof, "", none, 1⟩]
    (.literal (.number 8)) (.literal (.number 4)) 0 2 rfl rfl

unseal Rat.ofScientific Rat.add Rat.sub Rat.mul Rat.inv in
/-- C9: `parse` does not require the expression to consume all input: a
token sequence whose proper prefix forms an expression parses to that
expression, silently ignoring the remaining tokens (`"1 2"` parses to the
literal 1), and `parse` returns whatever `expression_result` produced with
no end-of-input check afterwards. -/
theorem C9_prefix_parse :
    (∀ (a b : ℚ) (la lb : String),
      Parser.parse [⟨.number, la, some (.number a), 1⟩,
        ⟨.number, lb, some (.number b), 1⟩, ⟨.eof, "", none, 1⟩] =
        .ok (.literal (.number a))) ∧
    (Parser.parse (Scanner.scan_tokens "1 2") = .ok (.literal (.number 1))) ∧
    (∀ (tokens : List Token) (e : Expr) (c : ℕ),
      Parser.expression_result (Parser.parseFuel tokens) tokens 0 = .ok (e, c) →
      Parser.parse tokens = .ok e) := by
  refine ⟨fun a b la lb => rfl, rfl, ?_⟩
  intro tokens e c h
  unfold Parser.parse
  rw [h]

/-- Witness for C9's final clause on the two-literal token sequence for
`"1 2"`, whose expression ends one token before the end of input. -/
theorem C9_prefix_parse_witness :
    Parser.parse [⟨.number, "1", some (.number 1), 1⟩,
      ⟨.number, "2", some (.number 2), 1⟩, ⟨.eof, "", none, 1⟩] =
      .ok (.literal (.number 1)) :=
  C9_prefix_parse.2.2 [⟨.number, "1", some (.number 1), 1⟩,
    ⟨.number, "2", some (.number 2), 1⟩, ⟨.eof, "", none, 1⟩]
    (.literal (.number 1)) 1 rfl

/-- C1 counterexample: an identifier token at primary position is *not*
accepted — parsing the token sequence for the bare identifier `x` returns a
ParseFailure "Expect expression." carrying the identifier token, refuting
the claim that identifiers parse successfully at primary position. -/
theorem C1_counterexample :
    Parser.parse [⟨.identifier, "x", none, 1⟩, ⟨.eof, "", none, 1⟩] =
      .error ⟨"Expect expression.", ⟨.identifier, "x", none, 1⟩⟩ := rfl

/-- C1 (amended): at primary position the parser accepts exactly `false`,
`true`, `nil`, number and string tokens (with their scanned payloads) and
`(`; *any* other token — identifiers included — produces the
"Expect expression." ParseFailure carrying that token. -/
theorem C1_primary_forms :
    (∀ (fuel : ℕ) (tokens : List Token) (current : ℕ),
      (Parser.peek tokens current).token_type ∉
        ([.kwFalse, .kwTrue, .kwNil, .number, .string, .leftParen] : List TokenType) →
      Parser.primary_result (fuel + 2) tokens current =
        .error ⟨"Expect expression.", Parser.peek tokens current⟩) ∧
    (∀ (fuel : ℕ) (tokens : List Token) (current : ℕ),
      (Parser.peek tokens current).token_type = TokenType.kwFalse →
      Parser.primary_result (fuel + 1) tokens current =
        .ok (.literal (.bool false), current + 1)) ∧
    (∀ (fuel : ℕ) (tokens : List Token) (current : ℕ),
      (Parser.peek tokens current).token_type = TokenType.kwTrue →
      Parser.primary_result (fuel + 1) tokens current =
        .ok (.literal (.bool true), current + 1)) ∧
    (∀ (fuel : ℕ) (tokens : List Token) (current : ℕ),
      (Parser.peek tokens current).token_type = TokenType.kwNil →
      Parser.primary_result (fuel + 1) tokens current =
        .ok (.literal .nil, current + 1)) ∧
    (∀ (fuel : ℕ) (tokens : List Token) (current : ℕ) (n : ℚ),
      (Parser.peek tokens current).token_type = TokenType.number →
      (Parser.peek tokens current).literal = some (.number n) →
      Parser.primary_result (fuel + 1) tokens current =
        .ok (.literal (.number n), current + 1)) ∧
    (∀ (fuel : ℕ) (tokens : List Token) (current : ℕ) (s : String),
      (Parser.peek tokens current).token_type = TokenType.string →
      (Parser.peek tokens current).literal = some (.string s) →
      Parser.primary_result (fuel + 1) tokens current =
        .ok (.literal (.string s), current + 1)) := by
  refine ⟨?_, ?_, ?_, ?_, ?_, ?_⟩
  · intro fuel tokens current h
    simp only [List.mem_cons, List.not_mem_nil, or_false, not_or] at h
    obtain ⟨h1, h2, h3, h4, h5, h6⟩ := h
    simp [Parser.primary_result, Parser.run_rule, Parser.match_tokens, Parser.check,
      h1, h2, h3, h4, h5, h6]
  · intro fuel tokens current h
    simp [Parser.primary_result, Parser.run_rule, Parser.match_tokens, Parser.check,
      Parser.is_at_end, Parser.advance, h]
  · intro fuel tokens current h
    simp [Parser.primary_result, Parser.run_rule, Parser.match_tokens, Parser.check,
      Parser.is_at_end, Parser.advance, h]
  · intro fuel tokens current h
    simp [Parser.primary_result, Parser.run_rule, Parser.match_tokens, Parser.check,
      Parser.is_at_end, Parser.advance, h]
  · intro fuel tokens current n h1 h2
    have hp : Parser.previous tokens (current + 1) = Parser.peek tokens current := by
      simp [Parser.previous, Parser.peek]
    simp [Parser.primary_result, Parser.run_rule, Parser.match_tokens, Parser.check,
      Parser.is_at_end, Parser.advance, h1, hp, h2]
  · intro fuel tokens current s h1 h2
    have hp : Parser.previous tokens (current + 1) = Parser.peek tokens current := by
      simp [Parser.previous, Parser.peek]
    simp [Parser.primary_result, Parser.run_rule, Parser.match_tokens, Parser.check,
      Parser.is_at_end, Parser.advance, h1, hp, h2]

/-- Witness for C1 (amended): the rejection clause applied to an identifier
token at primary position. -/
theorem C1_primary_forms_witness :
    Parser.primary_result 2 [⟨.identifier, "x", none, 1⟩, ⟨.eof, "", none, 1⟩] 0 =
      .error ⟨"Expect expression.",
        Parser.peek [⟨.identifier, "x", none, 1⟩, ⟨.eof, "", none, 1⟩] 0⟩ :=
  C1_primary_forms.1 0 [⟨.identifier, "x", none, 1⟩, ⟨.eof, "", none, 1⟩] 0 (by decide)

/-- C8 counterexample: scanning the one-character source `"\n"` yields a
single end-of-input token at line 2, while the last consumed character (the
newline at index 0) sits on line 1 — so the end-of-input token is *not*
placed at the line number of the last consumed character. -/
theorem C8_counterexample :
    Scanner.scan_tokens "\n" = [⟨.eof, "", none, 2⟩] ∧
    lineOfChar "\n".toList 0 = 1 ∧ (2 : Nat) ≠ 1 :=
  ⟨rfl, rfl, by decide⟩

/-- C8 (amended): every scan ends in exactly one end-of-input token — the
last element, and the only token of kind `Eof` — placed at the *final line
counter*, i.e. one plus the number of newline characters in the source
(which is the line of the last consumed character except when the source
ends with a newline); scanning the empty source yields exactly one token,
an end-of-input token at line 1. -/
theorem C8_single_eof :
    (∀ source : String, ∃ body,
      Scanner.scan_tokens source =
        body ++ [⟨.eof, "", none, 1 + source.toList.count '\n'⟩] ∧
      ∀ t ∈ body, t.token_type ≠ TokenType.eof) ∧
    Scanner.scan_tokens "" = [⟨.eof, "", none, 1⟩] := by
  constructor
  · intro source
    obtain ⟨fresh, e1, e2, e3⟩ :=
      Scanner.scanLoop_spec source.toList.length source.toList (Nat.le_refl _) 1 []
    refine ⟨fresh, ?_, e2⟩
    unfold Scanner.scan_tokens
    dsimp only
    rw [e1, e3]
    simp
  · rfl

/-- Witness for C8 (amended) on the source `"\n"`. -/
theorem C8_single_eof_witness :
    ∃ body, Scanner.scan_tokens "\n" =
        body ++ [⟨.eof, "", none, 1 + ("\n".toList.count '\n')⟩] ∧
      ∀ t ∈ body, t.token_type ≠ TokenType.eof :=
  C8_single_eof.1 "\n"

theorem fracDigitsAux_zero (fuel : ℕ) : fracDigitsAux fuel 0 = [] := by
  cases fuel <;> simp [fracDigitsAux]

theorem rat_floor_intCast (n : ℤ) : Rat.floor ((n : ℚ)) = n := by
  have h : Rat.floor ((n : ℚ)) = ⌊(n : ℚ)⌋ := by
    rw [Rat.floor_def, Rat.floor_def']
  rw [h, Int.floor_intCast]

theorem numToStringNN_natCast (m : ℕ) : numToStringNN ((m : ℚ)) = Nat.repr m := by
  unfold numToStringNN
  have hf : Rat.floor ((m : ℚ)) = (m : ℤ) := by
    have := rat_floor_intCast (m : ℤ)
    simpa using this
  rw [hf]
  simp [fracDigitsAux_zero]

theorem numToString_intCast (n : ℤ) : numToString ((n : ℚ)) = Int.repr n := by
  unfold numToString
  rcases n with m | m
  · have hcast : ((Int.ofNat m : ℤ) : ℚ) = ((m : ℕ) : ℚ) := by
      rw [Int.ofNat_eq_natCast, Int.cast_natCast]
    rw [hcast, if_neg (by simp), numToStringNN_natCast]
    rfl
  · have hneg : ((Int.negSucc m : ℤ) : ℚ) < 0 := by
      rw [Int.cast_lt_zero]
      exact Int.negSucc_lt_zero m
    rw [if_pos hneg]
    have hcast : -((Int.negSucc m : ℤ) : ℚ) = (((m + 1 : ℕ) : ℕ) : ℚ) := by
      rw [Int.negSucc_eq]
      push_cast
      ring
    rw [hcast, numToStringNN_natCast]
    rfl

unseal Rat.ofScientific Rat.add Rat.sub Rat.mul Rat.inv in
/-- C2 counterexample: the integral float `1e19` (exactly representable,
magnitude beyond the `i64` range) displays as the saturated `i64` bound
`"9223372036854775807"` rather than its decimal value
`"10000000000000000000"` — the rendering does not round-trip for integral
floats beyond the `i64` range. -/
theorem C2_counterexample :
    displayLox (.number ((10 : ℚ) ^ 19)) = "9223372036854775807" ∧
    numToString ((10 : ℚ) ^ 19) = "10000000000000000000" ∧
    displayLox (.number ((10 : ℚ) ^ 19)) ≠ numToString ((10 : ℚ) ^ 19) :=
  ⟨rfl, rfl, by decide⟩

/-- C2 (amended): an integral Number within the `i64` range displays as its
plain decimal integer rendering (no fractional part, agreeing with the
exact decimal rendering of the value); a non-integral Number displays as
its exact decimal rendering; String displays raw, Bool displays
`true`/`false`, Nil displays `nil`.  (Integral values beyond the `i64`
range saturate, per the counterexample.) -/
theorem C2_display_forms :
    (∀ n : ℤ, -(2 ^ 63) ≤ n → n < 2 ^ 63 →
      displayLox (.number ((n : ℚ))) = numToString ((n : ℚ)) ∧
      displayLox (.number ((n : ℚ))) = Int.repr n) ∧
    (∀ q : ℚ, q.den ≠ 1 → displayLox (.number q) = numToString q) ∧
    (∀ s : String, displayLox (.string s) = s) ∧
    displayLox (.bool true) = "true" ∧
    displayLox (.bool false) = "false" ∧
    displayLox .nil = "nil" := by
  refine ⟨?_, ?_, fun s => rfl, rfl, rfl, rfl⟩
  · intro n h1 h2
    have hsat : i64sat n = n := by
      unfold i64sat
      rw [min_eq_right (by omega), max_eq_right h1]
    have hden : ((n : ℚ)).den = 1 := Rat.den_intCast n
    constructor
    · rw [numToString_intCast]
      simp [displayLox, hden, hsat]
    · simp [displayLox, hden, hsat]
  · intro q hq
    simp [displayLox, hq]

/-- Witness for C2 (amended) at the in-range integral value 42. -/
theorem C2_display_forms_witness :
    displayLox (.number ((42 : ℤ) : ℚ)) = numToString (((42 : ℤ) : ℚ)) ∧
    displayLox (.number ((42 : ℤ) : ℚ)) = Int.repr 42 :=
  C2_display_forms.1 42 (by decide) (by decide)
